import Mathlib

/-!
Verification of the tile-grid / geo-projection engine of the
`argo-workflows-use-case` repository.

The definitions below are a shallow embedding of
`src/containers/wmts-fetcher/fetch_tiles.py` and
`src/containers/geo-converter/convert.py`.  Python `float` arithmetic is
modelled exactly over `ℚ` (for the tile-index and cropping arithmetic, which
is rational) and over `ℝ` (for the inverse-Mercator conversion, which uses
`atan`/`exp`).  Python's `int(...)` cast on a float truncates toward zero and
is modelled by `pyInt`; Python `dict`s keyed by `(row, col)` are modelled by
association lists looked up with `lookupTile`; PIL images are modelled by
their size together with a total pixel function.
-/

/-- EPSG:3857 Web Mercator origin (half of world extent in meters), from
`fetch_tiles.py`: `ORIGIN = 20037508.342787`. -/
def ORIGIN : ℚ := 20037508.342787

/-- Python's `int(...)` applied to a float: truncation toward zero
(floor for nonnegative arguments, ceiling for negative ones). -/
def pyInt (q : ℚ) : ℤ := if 0 ≤ q then ⌊q⌋ else ⌈q⌉

/-- `tile_size_meters = 2 * ORIGIN / (2 ** zoom)` as computed inside
`meters_to_tile` and `tile_to_meters`. -/
def tileSizeMeters (zoom : ℕ) : ℚ := 2 * ORIGIN / 2 ^ zoom

/-- `meters_to_tile` from `fetch_tiles.py`: convert EPSG:3857 coordinates
(meters) to tile x/y.  `tile_x = int((x + ORIGIN) / tile_size_meters)`,
`tile_y = int((ORIGIN - y) / tile_size_meters)`. -/
def meters_to_tile (x y : ℚ) (zoom : ℕ) : ℤ × ℤ :=
  (pyInt ((x + ORIGIN) / tileSizeMeters zoom),
   pyInt ((ORIGIN - y) / tileSizeMeters zoom))

/-- `tile_to_meters` from `fetch_tiles.py`: convert tile x/y to EPSG:3857
coordinates of the NW corner. -/
def tile_to_meters (tile_x tile_y : ℤ) (zoom : ℕ) : ℚ × ℚ :=
  ((tile_x : ℚ) * tileSizeMeters zoom - ORIGIN,
   ORIGIN - (tile_y : ℚ) * tileSizeMeters zoom)

lemma ORIGIN_pos : 0 < ORIGIN := by norm_num [ORIGIN]

lemma tileSizeMeters_pos (zoom : ℕ) : 0 < tileSizeMeters zoom := by
  have h := ORIGIN_pos
  rw [tileSizeMeters]
  positivity

lemma pyInt_of_nonneg {q : ℚ} (h : 0 ≤ q) : pyInt q = ⌊q⌋ := if_pos h

lemma pyInt_intCast (n : ℤ) : pyInt (n : ℚ) = n := by
  unfold pyInt
  split <;> simp

lemma pyInt_natCast (n : ℕ) : pyInt (n : ℚ) = n := by
  have h := pyInt_intCast (n : ℤ)
  simpa using h

lemma pyInt_le_self {q : ℚ} (h : 0 ≤ q) : (pyInt q : ℚ) ≤ q := by
  rw [pyInt_of_nonneg h]
  exact Int.floor_le q

lemma lt_pyInt_add_one (q : ℚ) : q < (pyInt q : ℚ) + 1 := by
  unfold pyInt
  split
  · exact_mod_cast Int.lt_floor_add_one q
  · have h := Int.le_ceil q
    linarith

/-- Claim C3 (counterexample): `meters_to_tile` truncates toward zero, so at
`x = -ORIGIN - 1` (ratio `-1 / (2·ORIGIN)`) it returns tile x `0`, while the
claimed floor formula gives `-1`. -/
theorem claim_C3_counterexample :
    meters_to_tile (-ORIGIN - 1) 0 0 ≠
      (⌊((-ORIGIN - 1) + ORIGIN) / tileSizeMeters 0⌋,
       ⌊(ORIGIN - 0) / tileSizeMeters 0⌋) := by
  have h : ((-ORIGIN - 1) + ORIGIN) / tileSizeMeters 0 = -(500000 / 20037508342787) := by
    norm_num [tileSizeMeters, ORIGIN]
  simp only [meters_to_tile, pyInt, h, Ne, Prod.mk.injEq, not_and]
  intro h1
  exfalso
  rw [if_neg (by norm_num)] at h1
  rw [show (⌈-((500000 : ℚ) / 20037508342787)⌉ : ℤ) = 0 by norm_num,
      show (⌊-((500000 : ℚ) / 20037508342787)⌋ : ℤ) = -1 by norm_num] at h1
  exact absurd h1 (by norm_num)

/-- Claim C3 (amended): for every EPSG:3857 coordinate pair inside the
Web-Mercator world extent (`-ORIGIN ≤ x` and `y ≤ ORIGIN`, so that both
ratios are nonnegative) and every zoom `z ≤ 19`, `meters_to_tile x y z`
equals the floor of the two ratios; outside that range the Python `int()`
cast truncates toward zero (ceiling), not floor. -/
theorem claim_C3_amended (x y : ℚ) (z : ℕ) (hz : z ≤ 19)
    (hx : -ORIGIN ≤ x) (hy : y ≤ ORIGIN) :
    meters_to_tile x y z =
      (⌊(x + ORIGIN) / tileSizeMeters z⌋, ⌊(ORIGIN - y) / tileSizeMeters z⌋) := by
  have hts := tileSizeMeters_pos z
  unfold meters_to_tile
  rw [pyInt_of_nonneg (div_nonneg (by linarith) hts.le),
      pyInt_of_nonneg (div_nonneg (by linarith) hts.le)]

/-- Witness for the amended claim C3 at `x = 0`, `y = 0`, `z = 1`. -/
theorem claim_C3_amended_witness :
    (1 : ℕ) ≤ 19 ∧ -ORIGIN ≤ (0 : ℚ) ∧ (0 : ℚ) ≤ ORIGIN ∧
      meters_to_tile 0 0 1 =
        (⌊((0 : ℚ) + ORIGIN) / tileSizeMeters 1⌋,
         ⌊(ORIGIN - 0) / tileSizeMeters 1⌋) :=
  ⟨by norm_num, by norm_num [ORIGIN], by norm_num [ORIGIN],
   claim_C3_amended 0 0 1 (by norm_num) (by norm_num [ORIGIN]) (by norm_num [ORIGIN])⟩

/-- Claim C4: for every zoom `z ∈ [0, 19]` and every tile index `(row, col)`
with `0 ≤ row < 2^z` and `0 ≤ col < 2^z`, applying `meters_to_tile` to the
NW-corner coordinates returned by `tile_to_meters col row z` yields exactly
`(col, row)`. -/
theorem claim_C4 (z : ℕ) (hz : z ≤ 19) (row col : ℤ)
    (hr : 0 ≤ row ∧ row < 2 ^ z) (hc : 0 ≤ col ∧ col < 2 ^ z) :
    meters_to_tile (tile_to_meters col row z).1 (tile_to_meters col row z).2 z =
      (col, row) := by
  have hts := (tileSizeMeters_pos z).ne.symm
  unfold meters_to_tile tile_to_meters
  have h1 : ((col : ℚ) * tileSizeMeters z - ORIGIN + ORIGIN) / tileSizeMeters z
      = (col : ℚ) := by
    field_simp
  have h2 : (ORIGIN - (ORIGIN - (row : ℚ) * tileSizeMeters z)) / tileSizeMeters z
      = (row : ℚ) := by
    field_simp
  simp only [h1, h2, pyInt_intCast]

/-- Witness for claim C4 at `z = 2`, `row = 3`, `col = 1`. -/
theorem claim_C4_witness :
    (2 : ℕ) ≤ 19 ∧ ((0 : ℤ) ≤ 3 ∧ (3 : ℤ) < 2 ^ 2) ∧ ((0 : ℤ) ≤ 1 ∧ (1 : ℤ) < 2 ^ 2) ∧
      meters_to_tile (tile_to_meters 1 3 2).1 (tile_to_meters 1 3 2).2 2 = (1, 3) :=
  ⟨by norm_num, by norm_num, by norm_num,
   claim_C4 2 (by norm_num) 3 1 (by norm_num) (by norm_num)⟩

/-- A bounding box `[min_x, min_y, max_x, max_y]`; the Python code passes
these around as 4-element lists. -/
structure BBox where
  min_x : ℚ
  min_y : ℚ
  max_x : ℚ
  max_y : ℚ
deriving DecidableEq, Repr

/-- A Python `range(start, stop)` object (step 1), as returned by
`bbox_to_tiles` and consumed by `merge_tiles` and `fetch_orthophoto`. -/
structure PyRange where
  start : ℤ
  stop : ℤ
deriving DecidableEq, Repr

/-- `len(range(start, stop))`. -/
def PyRange.length (r : PyRange) : ℕ := (r.stop - r.start).toNat

/-- The elements of `range(start, stop)` in iteration order. -/
def PyRange.toList (r : PyRange) : List ℤ :=
  (List.range r.length).map fun i : ℕ => r.start + (i : ℤ)

lemma PyRange.toList_length (r : PyRange) : r.toList.length = r.length := by
  unfold PyRange.toList
  simp

lemma PyRange.toList_get (r : PyRange) (i : ℕ) (h : i < r.toList.length) :
    r.toList.get ⟨i, h⟩ = r.start + (i : ℤ) := by
  unfold PyRange.toList at h ⊢
  simp only [List.get_eq_getElem, List.getElem_map, List.getElem_range]

/-- `bbox_to_tiles` from `fetch_tiles.py`: convert a bbox in EPSG:3857 to
`(row_range, col_range)` tile ranges.  The SW corner is converted, the NE
corner is converted, and the ranges run from the min to the max of each
coordinate (inclusive). -/
def bbox_to_tiles (bbox : BBox) (zoom : ℕ) : PyRange × PyRange :=
  let sw := meters_to_tile bbox.min_x bbox.min_y zoom
  let ne := meters_to_tile bbox.max_x bbox.max_y zoom
  let min_col := min sw.1 ne.1
  let max_col := max sw.1 ne.1
  let min_row := min sw.2 ne.2
  let max_row := max sw.2 ne.2
  (⟨min_row, max_row + 1⟩, ⟨min_col, max_col + 1⟩)

/-- `get_tile_bbox` from `fetch_tiles.py`: bbox `[min_x, min_y, max_x, max_y]`
in EPSG:3857 for a tile, from the NW corner of the tile and the NW corner of
the next tile diagonally. -/
def get_tile_bbox (row col : ℤ) (zoom : ℕ) : BBox :=
  let nw := tile_to_meters col row zoom
  let se := tile_to_meters (col + 1) (row + 1) zoom
  ⟨nw.1, se.2, se.1, nw.2⟩

/-- Claim C5: for every well-formed bounding box inside the Web-Mercator
world extent and every zoom `z ∈ [0, 19]`, the tile rectangle returned by
`bbox_to_tiles`, converted back through `get_tile_bbox` of its first (NW) and
last (SE) tiles, yields an extent that fully contains the bounding box. -/
theorem claim_C5 (b : BBox) (z : ℕ) (hz : z ≤ 19)
    (hx : b.min_x < b.max_x) (hy : b.min_y < b.max_y)
    (hx0 : -ORIGIN ≤ b.min_x) (hx1 : b.max_x ≤ ORIGIN)
    (hy0 : -ORIGIN ≤ b.min_y) (hy1 : b.max_y ≤ ORIGIN) :
    (get_tile_bbox (bbox_to_tiles b z).1.start (bbox_to_tiles b z).2.start z).min_x
        ≤ b.min_x ∧
    (get_tile_bbox ((bbox_to_tiles b z).1.stop - 1) ((bbox_to_tiles b z).2.stop - 1) z).min_y
        ≤ b.min_y ∧
    b.max_x ≤
      (get_tile_bbox ((bbox_to_tiles b z).1.stop - 1) ((bbox_to_tiles b z).2.stop - 1) z).max_x ∧
    b.max_y ≤
      (get_tile_bbox (bbox_to_tiles b z).1.start (bbox_to_tiles b z).2.start z).max_y := by
  have hts := tileSizeMeters_pos z
  simp only [bbox_to_tiles, get_tile_bbox, tile_to_meters, meters_to_tile]
  set ts := tileSizeMeters z with hts_def
  set p1 := pyInt ((b.min_x + ORIGIN) / ts) with hp1
  set p2 := pyInt ((b.max_x + ORIGIN) / ts) with hp2
  set q1 := pyInt ((ORIGIN - b.min_y) / ts) with hq1
  set q2 := pyInt ((ORIGIN - b.max_y) / ts) with hq2
  have e1 : q1 ⊔ q2 + 1 - 1 + 1 = q1 ⊔ q2 + 1 := by ring
  have e2 : p1 ⊔ p2 + 1 - 1 + 1 = p1 ⊔ p2 + 1 := by ring
  rw [e1, e2]
  refine ⟨?_, ?_, ?_, ?_⟩
  · -- first tile's min_x = min_col * ts - ORIGIN ≤ b.min_x
    have h1 : ((p1 ⊓ p2 : ℤ) : ℚ) ≤ (p1 : ℚ) := by exact_mod_cast min_le_left _ _
    have h2 : (p1 : ℚ) ≤ (b.min_x + ORIGIN) / ts := by
      rw [hp1]
      exact pyInt_le_self (div_nonneg (by linarith) hts.le)
    have h3 := (le_div_iff₀ hts).mp (h1.trans h2)
    linarith
  · -- last tile's min_y = ORIGIN - (max_row + 1) * ts ≤ b.min_y
    have h1 : (ORIGIN - b.min_y) / ts < (q1 : ℚ) + 1 := by
      rw [hq1]
      exact lt_pyInt_add_one _
    have h2 : (q1 : ℚ) ≤ ((q1 ⊔ q2 : ℤ) : ℚ) := by exact_mod_cast le_max_left _ _
    have h4 : (ORIGIN - b.min_y) / ts < ((q1 ⊔ q2 + 1 : ℤ) : ℚ) := by
      push_cast at h2 ⊢
      linarith
    have h5 := (div_lt_iff₀ hts).mp h4
    linarith
  · -- b.max_x ≤ last tile's max_x = (max_col + 1) * ts - ORIGIN
    have h1 : (b.max_x + ORIGIN) / ts < (p2 : ℚ) + 1 := by
      rw [hp2]
      exact lt_pyInt_add_one _
    have h2 : (p2 : ℚ) ≤ ((p1 ⊔ p2 : ℤ) : ℚ) := by exact_mod_cast le_max_right _ _
    have h4 : (b.max_x + ORIGIN) / ts < ((p1 ⊔ p2 + 1 : ℤ) : ℚ) := by
      push_cast at h2 ⊢
      linarith
    have h5 := (div_lt_iff₀ hts).mp h4
    linarith
  · -- b.max_y ≤ first tile's max_y = ORIGIN - min_row * ts
    have h1 : ((q1 ⊓ q2 : ℤ) : ℚ) ≤ (q2 : ℚ) := by exact_mod_cast min_le_right _ _
    have h2 : (q2 : ℚ) ≤ (ORIGIN - b.max_y) / ts := by
      rw [hq2]
      exact pyInt_le_self (div_nonneg (by linarith) hts.le)
    have h3 := (le_div_iff₀ hts).mp (h1.trans h2)
    linarith

/-- Witness for claim C5 at `b = [0, 0, 1, 1]`, `z = 0`. -/
theorem claim_C5_witness :
    (0 : ℕ) ≤ 19 ∧ (0 : ℚ) < 1 ∧ -ORIGIN ≤ (0 : ℚ) ∧ (1 : ℚ) ≤ ORIGIN ∧
    ((get_tile_bbox (bbox_to_tiles ⟨0, 0, 1, 1⟩ 0).1.start
        (bbox_to_tiles ⟨0, 0, 1, 1⟩ 0).2.start 0).min_x ≤ (0 : ℚ) ∧
     (get_tile_bbox ((bbox_to_tiles ⟨0, 0, 1, 1⟩ 0).1.stop - 1)
        ((bbox_to_tiles ⟨0, 0, 1, 1⟩ 0).2.stop - 1) 0).min_y ≤ (0 : ℚ) ∧
     (1 : ℚ) ≤ (get_tile_bbox ((bbox_to_tiles ⟨0, 0, 1, 1⟩ 0).1.stop - 1)
        ((bbox_to_tiles ⟨0, 0, 1, 1⟩ 0).2.stop - 1) 0).max_x ∧
     (1 : ℚ) ≤ (get_tile_bbox (bbox_to_tiles ⟨0, 0, 1, 1⟩ 0).1.start
        (bbox_to_tiles ⟨0, 0, 1, 1⟩ 0).2.start 0).max_y) :=
  ⟨by norm_num, by norm_num, by norm_num [ORIGIN], by norm_num [ORIGIN],
   claim_C5 ⟨0, 0, 1, 1⟩ 0 (by norm_num) (by norm_num) (by norm_num)
     (by norm_num [ORIGIN]) (by norm_num [ORIGIN]) (by norm_num [ORIGIN])
     (by norm_num [ORIGIN])⟩

/-- The loop body of `select_zoom_level` in `fetch_tiles.py`: the pixel
extent `min(tiles_x, tiles_y) * tile_size` the bbox would produce at a given
zoom, where `tiles_x = abs(ne_tile_x - sw_tile_x) + 1` and
`tiles_y = abs(ne_tile_y - sw_tile_y) + 1`. -/
def zoomPixels (bbox : BBox) (zoom : ℕ) (tile_size : ℤ) : ℤ :=
  let sw := meters_to_tile bbox.min_x bbox.min_y zoom
  let ne := meters_to_tile bbox.max_x bbox.max_y zoom
  let tiles_x := |ne.1 - sw.1| + 1
  let tiles_y := |ne.2 - sw.2| + 1
  min tiles_x tiles_y * tile_size

/-- The `for zoom in range(19, -1, -1)` loop of `select_zoom_level`:
returns the first zoom in the given scan list whose pixel extent reaches
`min_pixels`; falls through to `19` when the list is exhausted. -/
def selectZoomGo (bbox : BBox) (tile_size min_pixels : ℤ) : List ℕ → ℕ
  | [] => 19
  | z :: zs =>
    if min_pixels ≤ zoomPixels bbox z tile_size then z
    else selectZoomGo bbox tile_size min_pixels zs

/-- `select_zoom_level` from `fetch_tiles.py`: scan zooms 19, 18, ..., 0 and
return the first one whose pixel extent is at least `min_pixels`; return 19
if none qualifies.  `tile_size` is `settings.wmts.tile_size` and
`min_pixels` is `settings.min_pixels`. -/
def select_zoom_level (bbox : BBox) (tile_size min_pixels : ℤ) : ℕ :=
  selectZoomGo bbox tile_size min_pixels ((List.range 20).reverse)

lemma selectZoomGo_of_none (bbox : BBox) (tile_size min_pixels : ℤ)
    (l : List ℕ) (h : ∀ z ∈ l, ¬ min_pixels ≤ zoomPixels bbox z tile_size) :
    selectZoomGo bbox tile_size min_pixels l = 19 := by
  induction l with
  | nil => rfl
  | cons z zs ih =>
    rw [selectZoomGo, if_neg (h z (List.mem_cons_self z zs))]
    exact ih fun z' hz' => h z' (List.mem_cons_of_mem z hz')

lemma selectZoomGo_of_some (bbox : BBox) (tile_size min_pixels : ℤ)
    (l : List ℕ) (hsort : l.Pairwise (· > ·))
    (h : ∃ z ∈ l, min_pixels ≤ zoomPixels bbox z tile_size) :
    min_pixels ≤ zoomPixels bbox (selectZoomGo bbox tile_size min_pixels l) tile_size ∧
    selectZoomGo bbox tile_size min_pixels l ∈ l ∧
    ∀ z ∈ l, min_pixels ≤ zoomPixels bbox z tile_size →
      z ≤ selectZoomGo bbox tile_size min_pixels l := by
  induction l with
  | nil => obtain ⟨z, hz, _⟩ := h; cases hz
  | cons z0 zs ih =>
    rw [List.pairwise_cons] at hsort
    by_cases h0 : min_pixels ≤ zoomPixels bbox z0 tile_size
    · rw [selectZoomGo, if_pos h0]
      refine ⟨h0, List.mem_cons_self z0 zs, ?_⟩
      intro z hz _
      rcases List.mem_cons.mp hz with rfl | hz'
      · exact le_refl z
      · exact (hsort.1 z hz').le
    · rw [selectZoomGo, if_neg h0]
      have h' : ∃ z ∈ zs, min_pixels ≤ zoomPixels bbox z tile_size := by
        obtain ⟨z, hz, hq⟩ := h
        rcases List.mem_cons.mp hz with rfl | hz'
        · exact absurd hq h0
        · exact ⟨z, hz', hq⟩
      obtain ⟨ih1, ih2, ih3⟩ := ih hsort.2 h'
      refine ⟨ih1, List.mem_cons_of_mem z0 ih2, ?_⟩
      intro z hz hq
      rcases List.mem_cons.mp hz with rfl | hz'
      · exact absurd hq h0
      · exact ih3 z hz' hq

lemma mem_scan_list {z : ℕ} : z ∈ (List.range 20).reverse ↔ z ≤ 19 := by
  rw [List.mem_reverse, List.mem_range]
  omega

lemma scan_list_sorted : ((List.range 20).reverse).Pairwise (· > ·) := by
  rw [List.pairwise_reverse]
  exact List.pairwise_lt_range 20

/-- Claim C6: `select_zoom_level` scans zooms 19 down to 0 and returns the
first (hence greatest) zoom whose pixel extent `min(tiles_x, tiles_y) *
tile_size` is at least `min_pixels`, returning 19 when no zoom qualifies;
in particular, whenever some zoom in `[0, 19]` qualifies, the pixel extent
at the returned zoom is at least `min_pixels`. -/
theorem claim_C6 (bbox : BBox) (tile_size min_pixels : ℤ) :
    ((∃ z, z ≤ 19 ∧ min_pixels ≤ zoomPixels bbox z tile_size) →
      (min_pixels ≤ zoomPixels bbox (select_zoom_level bbox tile_size min_pixels) tile_size ∧
       select_zoom_level bbox tile_size min_pixels ≤ 19 ∧
       ∀ z ≤ 19, min_pixels ≤ zoomPixels bbox z tile_size →
         z ≤ select_zoom_level bbox tile_size min_pixels)) ∧
    ((∀ z ≤ 19, ¬ min_pixels ≤ zoomPixels bbox z tile_size) →
      select_zoom_level bbox tile_size min_pixels = 19) := by
  constructor
  · intro ⟨z, hz, hq⟩
    obtain ⟨h1, h2, h3⟩ := selectZoomGo_of_some bbox tile_size min_pixels
      ((List.range 20).reverse) scan_list_sorted ⟨z, mem_scan_list.mpr hz, hq⟩
    exact ⟨h1, mem_scan_list.mp h2,
      fun z' hz' hq' => h3 z' (mem_scan_list.mpr hz') hq'⟩
  · intro h
    exact selectZoomGo_of_none bbox tile_size min_pixels _
      fun z' hz' => h z' (mem_scan_list.mp hz')

/-- Witness for claim C6 at `bbox = [0, 0, 1, 1]`, `tile_size = 512`,
`min_pixels = 0` (zoom 19 qualifies since the pixel extent is nonnegative). -/
theorem claim_C6_witness :
    (∃ z, z ≤ 19 ∧ (0 : ℤ) ≤ zoomPixels ⟨0, 0, 1, 1⟩ z 512) ∧
    ((0 : ℤ) ≤ zoomPixels ⟨0, 0, 1, 1⟩ (select_zoom_level ⟨0, 0, 1, 1⟩ 512 0) 512 ∧
     select_zoom_level ⟨0, 0, 1, 1⟩ 512 0 ≤ 19 ∧
     ∀ z ≤ 19, (0 : ℤ) ≤ zoomPixels ⟨0, 0, 1, 1⟩ z 512 →
       z ≤ select_zoom_level ⟨0, 0, 1, 1⟩ 512 0) := by
  have h0 : (0 : ℤ) ≤ zoomPixels ⟨0, 0, 1, 1⟩ 0 512 := by
    unfold zoomPixels
    refine mul_nonneg (le_min ?_ ?_) (by norm_num) <;> positivity
  exact ⟨⟨0, by norm_num, h0⟩, (claim_C6 ⟨0, 0, 1, 1⟩ 512 0).1 ⟨0, by norm_num, h0⟩⟩

/-- A PIL image: its size and a total pixel function (colors as naturals;
`Image.new("RGB", ...)` fills with the fixed black background `0`).
Only pixels with `p.1 < width` and `p.2 < height` are meaningful. -/
structure Img where
  width : ℕ
  height : ℕ
  pix : ℕ × ℕ → ℕ

@[ext]
lemma Img.ext' {a b : Img} (hw : a.width = b.width) (hh : a.height = b.height)
    (hp : ∀ p, a.pix p = b.pix p) : a = b := by
  cases a
  cases b
  simp only [Img.mk.injEq]
  exact ⟨hw, hh, funext hp⟩

/-- `Image.new("RGB", (w, h))`: a blank canvas with the fixed background
color `0`. -/
def Img.new (w h : ℕ) : Img := ⟨w, h, fun _ => 0⟩

/-- `canvas.paste(tile, (x0, y0))`: overwrite the rectangle of `tile`'s size
anchored at `(x0, y0)`; all other pixels keep the canvas value. -/
def Img.paste (canvas tile : Img) (x0 y0 : ℕ) : Img :=
  { width := canvas.width
    height := canvas.height
    pix := fun p =>
      if x0 ≤ p.1 ∧ p.1 < x0 + tile.width ∧ y0 ≤ p.2 ∧ p.2 < y0 + tile.height
      then tile.pix (p.1 - x0, p.2 - y0)
      else canvas.pix p }

/-- `image.crop((left, top, right, bottom))`: the sub-image of size
`(right - left, bottom - top)` whose pixel `(i, j)` is the source pixel
`(i + left, j + top)`. -/
def Img.crop (image : Img) (left top right bottom : ℤ) : Img :=
  ⟨(right - left).toNat, (bottom - top).toNat,
   fun p => image.pix (p.1 + left.toNat, p.2 + top.toNat)⟩

/-- `x_per_pixel = (img_max_x - img_min_x) / img_width` from `crop_to_bbox`. -/
def xPerPixel (image : Img) (image_bbox : BBox) : ℚ :=
  (image_bbox.max_x - image_bbox.min_x) / (image.width : ℚ)

/-- `y_per_pixel = (img_max_y - img_min_y) / img_height` from `crop_to_bbox`. -/
def yPerPixel (image : Img) (image_bbox : BBox) : ℚ :=
  (image_bbox.max_y - image_bbox.min_y) / (image.height : ℚ)

/-- `left = max(0, int((tgt_min_x - img_min_x) / x_per_pixel))`. -/
def cropLeft (image : Img) (image_bbox target_bbox : BBox) : ℤ :=
  max 0 (pyInt ((target_bbox.min_x - image_bbox.min_x) / xPerPixel image image_bbox))

/-- `right = min(img_width, int((tgt_max_x - img_min_x) / x_per_pixel))`. -/
def cropRight (image : Img) (image_bbox target_bbox : BBox) : ℤ :=
  min (image.width : ℤ)
    (pyInt ((target_bbox.max_x - image_bbox.min_x) / xPerPixel image image_bbox))

/-- `top = max(0, int((img_max_y - tgt_max_y) / y_per_pixel))`. -/
def cropTop (image : Img) (image_bbox target_bbox : BBox) : ℤ :=
  max 0 (pyInt ((image_bbox.max_y - target_bbox.max_y) / yPerPixel image image_bbox))

/-- `bottom = min(img_height, int((img_max_y - tgt_min_y) / y_per_pixel))`. -/
def cropBottom (image : Img) (image_bbox target_bbox : BBox) : ℤ :=
  min (image.height : ℤ)
    (pyInt ((image_bbox.max_y - target_bbox.min_y) / yPerPixel image image_bbox))

/-- `crop_to_bbox` from `fetch_tiles.py`: clamp the target box edges to pixel
offsets; when `right <= left or bottom <= top` log a warning and return the
original image with its original bbox, otherwise crop and recompute the
actual bbox from the clamped pixel offsets. -/
def crop_to_bbox (image : Img) (image_bbox target_bbox : BBox) : Img × BBox :=
  let left := cropLeft image image_bbox target_bbox
  let right := cropRight image image_bbox target_bbox
  let top := cropTop image image_bbox target_bbox
  let bottom := cropBottom image image_bbox target_bbox
  if right ≤ left ∨ bottom ≤ top then (image, image_bbox)
  else
    (image.crop left top right bottom,
     ⟨image_bbox.min_x + (left : ℚ) * xPerPixel image image_bbox,
      image_bbox.max_y - (bottom : ℚ) * yPerPixel image image_bbox,
      image_bbox.min_x + (right : ℚ) * xPerPixel image image_bbox,
      image_bbox.max_y - (top : ℚ) * yPerPixel image image_bbox⟩)

/-- Claim C1 (counterexample): with mosaic bbox `[0, 0, 2, 2]` on a 2×2 image
and disjoint target `[10, 10, 12, 12]`, the clamped edges satisfy
`right <= left`, yet `crop_to_bbox` returns the uncropped mosaic with its
original bounding box instead of reporting any failure (the function has no
failure channel at all — its result type is always an image/bbox pair). -/
theorem claim_C1_counterexample :
    cropRight ⟨2, 2, fun _ => 0⟩ ⟨0, 0, 2, 2⟩ ⟨10, 10, 12, 12⟩
        ≤ cropLeft ⟨2, 2, fun _ => 0⟩ ⟨0, 0, 2, 2⟩ ⟨10, 10, 12, 12⟩ ∧
    crop_to_bbox ⟨2, 2, fun _ => 0⟩ ⟨0, 0, 2, 2⟩ ⟨10, 10, 12, 12⟩
        = (⟨2, 2, fun _ => 0⟩, ⟨0, 0, 2, 2⟩) := by
  have hl : cropLeft ⟨2, 2, fun _ => 0⟩ ⟨0, 0, 2, 2⟩ ⟨10, 10, 12, 12⟩ = 10 := by
    unfold cropLeft xPerPixel pyInt
    norm_num
  have hr : cropRight ⟨2, 2, fun _ => 0⟩ ⟨0, 0, 2, 2⟩ ⟨10, 10, 12, 12⟩ = 2 := by
    unfold cropRight xPerPixel pyInt
    norm_num
  refine ⟨by rw [hl, hr]; norm_num, ?_⟩
  unfold crop_to_bbox
  rw [if_pos (Or.inl (by rw [hl, hr]; norm_num))]

/-- Claim C1 (amended): when the clamped pixel edges computed by
`crop_to_bbox` satisfy `right <= left` or `bottom <= top`, the function does
NOT report a failure — it silently falls back to returning the uncropped
mosaic together with its original bounding box (there is no `CropFailure`
in the code). -/
theorem claim_C1_amended (image : Img) (image_bbox target_bbox : BBox)
    (hwf_x : image_bbox.min_x < image_bbox.max_x)
    (hwf_y : image_bbox.min_y < image_bbox.max_y)
    (h : cropRight image image_bbox target_bbox ≤ cropLeft image image_bbox target_bbox ∨
         cropBottom image image_bbox target_bbox ≤ cropTop image image_bbox target_bbox) :
    crop_to_bbox image image_bbox target_bbox = (image, image_bbox) := by
  unfold crop_to_bbox
  rw [if_pos h]

/-- Witness for the amended claim C1 at the concrete disjoint-target input. -/
theorem claim_C1_amended_witness :
    ((0 : ℚ) < 2 ∧ (0 : ℚ) < 2) ∧
    (cropRight ⟨2, 2, fun _ => 0⟩ ⟨0, 0, 2, 2⟩ ⟨10, 10, 12, 12⟩
        ≤ cropLeft ⟨2, 2, fun _ => 0⟩ ⟨0, 0, 2, 2⟩ ⟨10, 10, 12, 12⟩ ∨
     cropBottom ⟨2, 2, fun _ => 0⟩ ⟨0, 0, 2, 2⟩ ⟨10, 10, 12, 12⟩
        ≤ cropTop ⟨2, 2, fun _ => 0⟩ ⟨0, 0, 2, 2⟩ ⟨10, 10, 12, 12⟩) ∧
    crop_to_bbox ⟨2, 2, fun _ => 0⟩ ⟨0, 0, 2, 2⟩ ⟨10, 10, 12, 12⟩
        = (⟨2, 2, fun _ => 0⟩, ⟨0, 0, 2, 2⟩) := by
  have hcond : cropRight ⟨2, 2, fun _ => 0⟩ ⟨0, 0, 2, 2⟩ ⟨10, 10, 12, 12⟩
      ≤ cropLeft ⟨2, 2, fun _ => 0⟩ ⟨0, 0, 2, 2⟩ ⟨10, 10, 12, 12⟩ := by
    unfold cropLeft cropRight xPerPixel pyInt
    norm_num
  exact ⟨⟨by norm_num, by norm_num⟩, Or.inl hcond,
    claim_C1_amended ⟨2, 2, fun _ => 0⟩ ⟨0, 0, 2, 2⟩ ⟨10, 10, 12, 12⟩
      (by norm_num) (by norm_num) (Or.inl hcond)⟩

/-- Claim C7: for every mosaic image of positive size with a well-formed
bounding box `B`, `crop_to_bbox image B B` (the identity case) does not hit
the degenerate-crop fallback, returns an image of exactly the original size,
and returns an actual bounding box equal to `B` (recomputed from the clamped
pixel offsets). -/
theorem claim_C7 (image : Img) (B : BBox)
    (hw : 0 < image.width) (hh : 0 < image.height)
    (hwf_x : B.min_x < B.max_x) (hwf_y : B.min_y < B.max_y) :
    ¬ (cropRight image B B ≤ cropLeft image B B ∨
       cropBottom image B B ≤ cropTop image B B) ∧
    (crop_to_bbox image B B).1.width = image.width ∧
    (crop_to_bbox image B B).1.height = image.height ∧
    (crop_to_bbox image B B).2 = B := by
  have hwq : ((image.width : ℚ)) ≠ 0 := by
    have h := hw.ne.symm
    exact_mod_cast h
  have hhq : ((image.height : ℚ)) ≠ 0 := by
    have h := hh.ne.symm
    exact_mod_cast h
  have hqx : B.max_x - B.min_x ≠ 0 := sub_ne_zero.mpr hwf_x.ne.symm
  have hqy : B.max_y - B.min_y ≠ 0 := sub_ne_zero.mpr hwf_y.ne.symm
  have hL : cropLeft image B B = 0 := by
    unfold cropLeft xPerPixel
    rw [show B.min_x - B.min_x = 0 from by ring, zero_div]
    simp [pyInt]
  have hR : cropRight image B B = (image.width : ℤ) := by
    unfold cropRight xPerPixel
    rw [show (B.max_x - B.min_x) / ((B.max_x - B.min_x) / (image.width : ℚ))
          = (image.width : ℚ) from by field_simp, pyInt_natCast]
    simp
  have hT : cropTop image B B = 0 := by
    unfold cropTop yPerPixel
    rw [show B.max_y - B.max_y = 0 from by ring, zero_div]
    simp [pyInt]
  have hB : cropBottom image B B = (image.height : ℤ) := by
    unfold cropBottom yPerPixel
    rw [show (B.max_y - B.min_y) / ((B.max_y - B.min_y) / (image.height : ℚ))
          = (image.height : ℚ) from by field_simp, pyInt_natCast]
    simp
  have hcond : ¬ (cropRight image B B ≤ cropLeft image B B ∨
      cropBottom image B B ≤ cropTop image B B) := by
    rw [hL, hR, hT, hB]
    push_neg
    constructor
    · exact_mod_cast hw
    · exact_mod_cast hh
  refine ⟨hcond, ?_⟩
  unfold crop_to_bbox
  rw [if_neg hcond, hL, hR, hT, hB]
  refine ⟨by simp [Img.crop], by simp [Img.crop], ?_⟩
  have e1 : B.min_x + ((0 : ℤ) : ℚ) * xPerPixel image B = B.min_x := by
    push_cast
    ring
  have e2 : B.max_y - ((image.height : ℤ) : ℚ) * yPerPixel image B = B.min_y := by
    unfold yPerPixel
    push_cast
    field_simp
  have e3 : B.min_x + ((image.width : ℤ) : ℚ) * xPerPixel image B = B.max_x := by
    unfold xPerPixel
    push_cast
    field_simp
  have e4 : B.max_y - ((0 : ℤ) : ℚ) * yPerPixel image B = B.max_y := by
    push_cast
    ring
  rw [e1, e2, e3, e4]

/-- Witness for claim C7 at a 2×3 image with bbox `[0, 0, 1, 1]`. -/
theorem claim_C7_witness :
    (0 < 2 ∧ 0 < 3 ∧ (0 : ℚ) < 1 ∧ (0 : ℚ) < 1) ∧
    (¬ (cropRight ⟨2, 3, fun _ => 0⟩ ⟨0, 0, 1, 1⟩ ⟨0, 0, 1, 1⟩
          ≤ cropLeft ⟨2, 3, fun _ => 0⟩ ⟨0, 0, 1, 1⟩ ⟨0, 0, 1, 1⟩ ∨
        cropBottom ⟨2, 3, fun _ => 0⟩ ⟨0, 0, 1, 1⟩ ⟨0, 0, 1, 1⟩
          ≤ cropTop ⟨2, 3, fun _ => 0⟩ ⟨0, 0, 1, 1⟩ ⟨0, 0, 1, 1⟩) ∧
     (crop_to_bbox ⟨2, 3, fun _ => 0⟩ ⟨0, 0, 1, 1⟩ ⟨0, 0, 1, 1⟩).1.width = 2 ∧
     (crop_to_bbox ⟨2, 3, fun _ => 0⟩ ⟨0, 0, 1, 1⟩ ⟨0, 0, 1, 1⟩).1.height = 3 ∧
     (crop_to_bbox ⟨2, 3, fun _ => 0⟩ ⟨0, 0, 1, 1⟩ ⟨0, 0, 1, 1⟩).2 = ⟨0, 0, 1, 1⟩) :=
  ⟨⟨by norm_num, by norm_num, by norm_num, by norm_num⟩,
   claim_C7 ⟨2, 3, fun _ => 0⟩ ⟨0, 0, 1, 1⟩ (by norm_num) (by norm_num)
     (by norm_num) (by norm_num)⟩

/-- `tiles.get((row, col))` on the Python dict of fetched tiles, modelled as
first-match lookup in an association list (the dict's keys are unique, so
first-match equals dict lookup). -/
def lookupTile : List ((ℤ × ℤ) × Img) → ℤ × ℤ → Option Img
  | [], _ => none
  | (k, img) :: rest, key => if k = key then some img else lookupTile rest key

lemma lookupTile_cons (x : (ℤ × ℤ) × Img) (rest : List ((ℤ × ℤ) × Img)) (key : ℤ × ℤ) :
    lookupTile (x :: rest) key = if x.1 = key then some x.2 else lookupTile rest key := by
  cases x
  rfl

lemma lookupTile_mem {tiles : List ((ℤ × ℤ) × Img)} {key : ℤ × ℤ} {img : Img}
    (h : lookupTile tiles key = some img) : (key, img) ∈ tiles := by
  induction tiles with
  | nil => cases h
  | cons x rest ih =>
    rw [lookupTile_cons] at h
    split at h
    · cases h
      rename_i hk
      rw [← hk]
      exact List.mem_cons_self x rest
    · exact List.mem_cons_of_mem x (ih h)

lemma lookupTile_perm {l1 l2 : List ((ℤ × ℤ) × Img)} (h : l1.Perm l2) :
    (l1.map Prod.fst).Nodup → ∀ k, lookupTile l1 k = lookupTile l2 k := by
  induction h with
  | nil => exact fun _ _ => rfl
  | cons x p ih =>
    intro hnd k
    rw [lookupTile_cons, lookupTile_cons]
    rw [List.map_cons, List.nodup_cons] at hnd
    split
    · rfl
    · exact ih hnd.2 k
  | swap x y l =>
    intro hnd k
    rw [List.map_cons, List.map_cons, List.nodup_cons] at hnd
    have hxy : y.1 ≠ x.1 := fun he => hnd.1 (by rw [he]; exact List.mem_cons_self _ _)
    rw [lookupTile_cons, lookupTile_cons, lookupTile_cons, lookupTile_cons]
    by_cases h1 : y.1 = k <;> by_cases h2 : x.1 = k
    · exact absurd (h1.trans h2.symm) hxy
    · rw [if_pos h1, if_neg h2, if_pos h1]
    · rw [if_neg h1, if_pos h2, if_pos h2]
    · rw [if_neg h1, if_neg h2, if_neg h2, if_neg h1]
  | trans p1 p2 ih1 ih2 =>
    intro hnd k
    have hnd2 : (_ : List ((ℤ × ℤ) × Img)).map Prod.fst |>.Nodup :=
      ((p1.map Prod.fst).nodup_iff).mp hnd
    exact (ih1 hnd k).trans (ih2 hnd2 k)

/-- `merge_tiles` from `fetch_tiles.py`: allocate a blank canvas of
`(len(col_range) * tile_size, len(row_range) * tile_size)` pixels, then for
each `(row_idx, row)` and `(col_idx, col)` paste the fetched tile (when
present in the map) at `(col_idx * tile_size, row_idx * tile_size)`. -/
def merge_tiles (tile_size : ℕ) (tiles : List ((ℤ × ℤ) × Img))
    (row_range col_range : PyRange) : Img :=
  row_range.toList.enum.foldl
    (fun acc rc =>
      col_range.toList.enum.foldl
        (fun acc2 cc =>
          match lookupTile tiles (rc.2, cc.2) with
          | some tile => acc2.paste tile (cc.1 * tile_size) (rc.1 * tile_size)
          | none => acc2)
        acc)
    (Img.new (col_range.length * tile_size) (row_range.length * tile_size))

/-- One step of the `merge_tiles` double loop, for a cell
`((row_idx, row), (col_idx, col))`. -/
def mergeStep (tile_size : ℕ) (tiles : List ((ℤ × ℤ) × Img))
    (acc : Img) (cell : (ℕ × ℤ) × (ℕ × ℤ)) : Img :=
  match lookupTile tiles (cell.1.2, cell.2.2) with
  | some tile => acc.paste tile (cell.2.1 * tile_size) (cell.1.1 * tile_size)
  | none => acc

lemma product_cons_eq {α β : Type} (a : α) (A : List α) (B : List β) :
    (a :: A).product B = B.map (Prod.mk a) ++ A.product B := rfl

lemma foldl_nested_eq_product {α β σ : Type} (A : List α) (B : List β)
    (g : σ → α × β → σ) (init : σ) :
    A.foldl (fun acc a => B.foldl (fun acc2 b => g acc2 (a, b)) acc) init
      = (A.product B).foldl g init := by
  induction A generalizing init with
  | nil => rfl
  | cons a A ih =>
    rw [List.foldl_cons, product_cons_eq, List.foldl_append, List.foldl_map]
    exact ih _

lemma merge_tiles_eq_foldl (tile_size : ℕ) (tiles : List ((ℤ × ℤ) × Img))
    (row_range col_range : PyRange) :
    merge_tiles tile_size tiles row_range col_range
      = (row_range.toList.enum.product col_range.toList.enum).foldl
          (mergeStep tile_size tiles)
          (Img.new (col_range.length * tile_size) (row_range.length * tile_size)) := by
  rw [merge_tiles, ← foldl_nested_eq_product]
  rfl

/-- The cell `((row_idx, row), (col_idx, col))` covers pixel `p` when `p`
lies in the `tile_size × tile_size` block anchored at
`(col_idx * tile_size, row_idx * tile_size)`. -/
def covers (tile_size : ℕ) (cell : (ℕ × ℤ) × (ℕ × ℤ)) (p : ℕ × ℕ) : Prop :=
  cell.2.1 * tile_size ≤ p.1 ∧ p.1 < cell.2.1 * tile_size + tile_size ∧
  cell.1.1 * tile_size ≤ p.2 ∧ p.2 < cell.1.1 * tile_size + tile_size

lemma covers_index_eq {t : ℕ} (ht : 0 < t) {c c' : (ℕ × ℤ) × (ℕ × ℤ)} {p : ℕ × ℕ}
    (h : covers t c p) (h' : covers t c' p) : c.1.1 = c'.1.1 ∧ c.2.1 = c'.2.1 := by
  obtain ⟨h1, h2, h3, h4⟩ := h
  obtain ⟨h1', h2', h3', h4'⟩ := h'
  constructor
  · have e1 : p.2 / t = c.1.1 :=
      Nat.div_eq_of_lt_le h3 (by rw [Nat.add_mul, one_mul]; exact h4)
    have e2 : p.2 / t = c'.1.1 :=
      Nat.div_eq_of_lt_le h3' (by rw [Nat.add_mul, one_mul]; exact h4')
    omega
  · have e1 : p.1 / t = c.2.1 :=
      Nat.div_eq_of_lt_le h1 (by rw [Nat.add_mul, one_mul]; exact h2)
    have e2 : p.1 / t = c'.2.1 :=
      Nat.div_eq_of_lt_le h1' (by rw [Nat.add_mul, one_mul]; exact h2')
    omega

lemma mergeStep_width (t : ℕ) (tiles : List ((ℤ × ℤ) × Img)) (acc : Img)
    (cell : (ℕ × ℤ) × (ℕ × ℤ)) :
    (mergeStep t tiles acc cell).width = acc.width ∧
    (mergeStep t tiles acc cell).height = acc.height := by
  unfold mergeStep
  split <;> exact ⟨rfl, rfl⟩

lemma foldl_mergeStep_size (t : ℕ) (tiles : List ((ℤ × ℤ) × Img))
    (cells : List ((ℕ × ℤ) × (ℕ × ℤ))) (init : Img) :
    (cells.foldl (mergeStep t tiles) init).width = init.width ∧
    (cells.foldl (mergeStep t tiles) init).height = init.height := by
  induction cells generalizing init with
  | nil => exact ⟨rfl, rfl⟩
  | cons c cs ih =>
    rw [List.foldl_cons]
    obtain ⟨ihw, ihh⟩ := ih (mergeStep t tiles init c)
    obtain ⟨hw, hh⟩ := mergeStep_width t tiles init c
    exact ⟨ihw.trans hw, ihh.trans hh⟩

lemma mergeStep_pix_of_not_covers {t : ℕ} {tiles : List ((ℤ × ℤ) × Img)}
    (hsz : ∀ kv ∈ tiles, kv.2.width = t ∧ kv.2.height = t)
    {cell : (ℕ × ℤ) × (ℕ × ℤ)} {p : ℕ × ℕ} (h : ¬ covers t cell p) (acc : Img) :
    (mergeStep t tiles acc cell).pix p = acc.pix p := by
  unfold mergeStep
  cases hl : lookupTile tiles (cell.1.2, cell.2.2) with
  | none => rfl
  | some tile =>
    obtain ⟨htw, hth⟩ := hsz _ (lookupTile_mem hl)
    have htw' : tile.width = t := htw
    have hth' : tile.height = t := hth
    show (acc.paste tile _ _).pix p = acc.pix p
    unfold Img.paste
    simp only
    rw [if_neg]
    intro hcov
    rw [htw'] at hcov
    rw [hth'] at hcov
    exact h hcov

lemma foldl_mergeStep_pix_of_not_covers {t : ℕ} {tiles : List ((ℤ × ℤ) × Img)}
    (hsz : ∀ kv ∈ tiles, kv.2.width = t ∧ kv.2.height = t)
    {cells : List ((ℕ × ℤ) × (ℕ × ℤ))} {p : ℕ × ℕ}
    (h : ∀ c ∈ cells, ¬ covers t c p) (init : Img) :
    (cells.foldl (mergeStep t tiles) init).pix p = init.pix p := by
  induction cells generalizing init with
  | nil => rfl
  | cons c cs ih =>
    rw [List.foldl_cons]
    rw [ih (fun c' hc' => h c' (List.mem_cons_of_mem c hc')) _]
    exact mergeStep_pix_of_not_covers hsz (h c (List.mem_cons_self c cs)) init

lemma mergeStep_pix_of_covers {t : ℕ} {tiles : List ((ℤ × ℤ) × Img)}
    (hsz : ∀ kv ∈ tiles, kv.2.width = t ∧ kv.2.height = t)
    {cell : (ℕ × ℤ) × (ℕ × ℤ)} {p : ℕ × ℕ} (h : covers t cell p) (acc : Img) :
    (mergeStep t tiles acc cell).pix p =
      match lookupTile tiles (cell.1.2, cell.2.2) with
      | some tile => tile.pix (p.1 - cell.2.1 * t, p.2 - cell.1.1 * t)
      | none => acc.pix p := by
  unfold mergeStep
  cases hl : lookupTile tiles (cell.1.2, cell.2.2) with
  | none => rfl
  | some tile =>
    obtain ⟨htw, hth⟩ := hsz _ (lookupTile_mem hl)
    have htw' : tile.width = t := htw
    have hth' : tile.height = t := hth
    show (acc.paste tile _ _).pix p = _
    unfold Img.paste
    simp only
    rw [if_pos ⟨h.1, by rw [htw']; exact h.2.1, h.2.2.1, by rw [hth']; exact h.2.2.2⟩]

lemma foldl_mergeStep_pix_of_covers {t : ℕ} (ht : 0 < t)
    {tiles : List ((ℤ × ℤ) × Img)}
    (hsz : ∀ kv ∈ tiles, kv.2.width = t ∧ kv.2.height = t)
    {cells : List ((ℕ × ℤ) × (ℕ × ℤ))}
    (hnd : (cells.map fun c => (c.1.1, c.2.1)).Nodup)
    {c0 : (ℕ × ℤ) × (ℕ × ℤ)} (hc0 : c0 ∈ cells) {p : ℕ × ℕ}
    (hcov : covers t c0 p) (init : Img) :
    (cells.foldl (mergeStep t tiles) init).pix p =
      match lookupTile tiles (c0.1.2, c0.2.2) with
      | some tile => tile.pix (p.1 - c0.2.1 * t, p.2 - c0.1.1 * t)
      | none => init.pix p := by
  induction cells generalizing init with
  | nil => cases hc0
  | cons c cs ih =>
    rw [List.map_cons, List.nodup_cons] at hnd
    rw [List.foldl_cons]
    rcases List.mem_cons.mp hc0 with rfl | hc0'
    · -- c0 is the head cell; no later cell covers p
      have hrest : ∀ c' ∈ cs, ¬ covers t c' p := by
        intro c' hc' hcov'
        obtain ⟨e1, e2⟩ := covers_index_eq ht hcov hcov'
        exact hnd.1 (List.mem_map.mpr ⟨c', hc', by rw [← e1, ← e2]⟩)
      rw [foldl_mergeStep_pix_of_not_covers hsz hrest _]
      exact mergeStep_pix_of_covers hsz hcov init
    · -- c0 is in the tail; the head cannot cover p
      have hhead : ¬ covers t c p := by
        intro hcovh
        obtain ⟨e1, e2⟩ := covers_index_eq ht hcovh hcov
        exact hnd.1 (List.mem_map.mpr ⟨c0, hc0', by rw [e1, e2]⟩)
      have hstep := mergeStep_pix_of_not_covers hsz hhead init
      rw [ih hnd.2 hc0' (mergeStep t tiles init c)]
      cases lookupTile tiles (c0.1.2, c0.2.2) with
      | some tile => rfl
      | none => exact hstep

lemma map_pair_product {α β : Type} (A : List (ℕ × α)) (B : List (ℕ × β)) :
    ((A.product B).map fun c => (c.1.1, c.2.1))
      = (A.map Prod.fst).product (B.map Prod.fst) := by
  induction A with
  | nil => rfl
  | cons a A ih =>
    simp only [product_cons_eq, List.map_append, List.map_map, List.map_cons, ih]
    congr 1

lemma PyRange.mem_enum_toList (r : PyRange) (i : ℕ) (hi : i < r.length) :
    ((i : ℕ), r.start + (i : ℤ)) ∈ r.toList.enum := by
  rw [List.mk_mem_enum_iff_getElem?]
  unfold PyRange.toList
  simp [List.getElem?_range, hi]

/-- Claim C8: for every tile map with unique keys whose tiles all have size
`tile_size × tile_size` (`tile_size > 0`) and non-empty row/column ranges,
`merge_tiles` returns an image of exactly
`(len(col_range) * tile_size, len(row_range) * tile_size)` pixels; the pixel
at offset `(dx, dy)` inside grid cell `(ri, ci)` is the corresponding pixel
of the tile stored under key `(row_range.start + ri, col_range.start + ci)`
when present and the fixed blank background `0` when absent; and the result
is invariant under permuting the tile map (fetch/insertion order). -/
theorem claim_C8 (t : ℕ) (ht : 0 < t) (tiles tiles1 : List ((ℤ × ℤ) × Img))
    (hsz : ∀ kv ∈ tiles, kv.2.width = t ∧ kv.2.height = t)
    (hkeys : (tiles.map Prod.fst).Nodup)
    (hperm : tiles1.Perm tiles)
    (rr cr : PyRange) (hrr : 0 < rr.length) (hcr : 0 < cr.length)
    (ri ci dx dy : ℕ) (hri : ri < rr.length) (hci : ci < cr.length)
    (hdx : dx < t) (hdy : dy < t) :
    (merge_tiles t tiles rr cr).width = cr.length * t ∧
    (merge_tiles t tiles rr cr).height = rr.length * t ∧
    (merge_tiles t tiles rr cr).pix (ci * t + dx, ri * t + dy)
      = (match lookupTile tiles (rr.start + (ri : ℤ), cr.start + (ci : ℤ)) with
         | some tile => tile.pix (dx, dy)
         | none => 0) ∧
    merge_tiles t tiles1 rr cr = merge_tiles t tiles rr cr := by
  have hnd_cells :
      (((rr.toList.enum.product cr.toList.enum)).map fun c => (c.1.1, c.2.1)).Nodup := by
    rw [map_pair_product, List.enum_map_fst, List.enum_map_fst,
        PyRange.toList_length, PyRange.toList_length]
    exact (List.nodup_range _).product (List.nodup_range _)
  have hsz1 : ∀ kv ∈ tiles1, kv.2.width = t ∧ kv.2.height = t :=
    fun kv hkv => hsz kv (hperm.mem_iff.mp hkv)
  have hkeys1 : (tiles1.map Prod.fst).Nodup :=
    ((hperm.map Prod.fst).nodup_iff).mpr hkeys
  refine ⟨?_, ?_, ?_, ?_⟩
  · rw [merge_tiles_eq_foldl]
    exact (foldl_mergeStep_size t tiles _ _).1
  · rw [merge_tiles_eq_foldl]
    exact (foldl_mergeStep_size t tiles _ _).2
  · have hc0mem : ((ri, rr.start + (ri : ℤ)), (ci, cr.start + (ci : ℤ)))
        ∈ rr.toList.enum.product cr.toList.enum :=
      List.pair_mem_product.mpr
        ⟨rr.mem_enum_toList ri hri, cr.mem_enum_toList ci hci⟩
    have hcov : covers t ((ri, rr.start + (ri : ℤ)), (ci, cr.start + (ci : ℤ)))
        (ci * t + dx, ri * t + dy) :=
      ⟨Nat.le_add_right _ _, Nat.add_lt_add_left hdx _,
       Nat.le_add_right _ _, Nat.add_lt_add_left hdy _⟩
    rw [merge_tiles_eq_foldl]
    rw [foldl_mergeStep_pix_of_covers ht hsz hnd_cells hc0mem hcov]
    cases lookupTile tiles (rr.start + (ri : ℤ), cr.start + (ci : ℤ)) with
    | some tile => simp [Nat.add_sub_cancel_left]
    | none => rfl
  · apply Img.ext'
    · rw [merge_tiles_eq_foldl, merge_tiles_eq_foldl]
      exact ((foldl_mergeStep_size t tiles1 _ _).1).trans
        ((foldl_mergeStep_size t tiles _ _).1).symm
    · rw [merge_tiles_eq_foldl, merge_tiles_eq_foldl]
      exact ((foldl_mergeStep_size t tiles1 _ _).2).trans
        ((foldl_mergeStep_size t tiles _ _).2).symm
    · intro p
      rw [merge_tiles_eq_foldl, merge_tiles_eq_foldl]
      by_cases hex : ∃ c ∈ rr.toList.enum.product cr.toList.enum, covers t c p
      · obtain ⟨c0, hc0, hcov0⟩ := hex
        rw [foldl_mergeStep_pix_of_covers ht hsz1 hnd_cells hc0 hcov0,
            foldl_mergeStep_pix_of_covers ht hsz hnd_cells hc0 hcov0,
            lookupTile_perm hperm hkeys1]
      · have hnone : ∀ c ∈ rr.toList.enum.product cr.toList.enum, ¬ covers t c p :=
          fun c hc hcov => hex ⟨c, hc, hcov⟩
        rw [foldl_mergeStep_pix_of_not_covers hsz1 hnone,
            foldl_mergeStep_pix_of_not_covers hsz hnone]

/-- Witness for claim C8: a single 1×1 tile at key `(5, 7)` merged over the
ranges `range(5, 6)` × `range(7, 8)` with `tile_size = 1`. -/
theorem claim_C8_witness :
    (0 < 1 ∧
     (∀ kv ∈ ([((5, 7), Img.mk 1 1 fun _ => 3)] : List ((ℤ × ℤ) × Img)),
        kv.2.width = 1 ∧ kv.2.height = 1) ∧
     (([((5, 7), Img.mk 1 1 fun _ => 3)] : List ((ℤ × ℤ) × Img)).map Prod.fst).Nodup ∧
     (([((5, 7), Img.mk 1 1 fun _ => 3)] : List ((ℤ × ℤ) × Img)).Perm
        ([((5, 7), Img.mk 1 1 fun _ => 3)] : List ((ℤ × ℤ) × Img))) ∧
     0 < (PyRange.mk 5 6).length ∧ 0 < (PyRange.mk 7 8).length) ∧
    ((merge_tiles 1 ([((5, 7), Img.mk 1 1 fun _ => 3)] : List ((ℤ × ℤ) × Img))
        ⟨5, 6⟩ ⟨7, 8⟩).width = (PyRange.mk 7 8).length * 1 ∧
     (merge_tiles 1 ([((5, 7), Img.mk 1 1 fun _ => 3)] : List ((ℤ × ℤ) × Img))
        ⟨5, 6⟩ ⟨7, 8⟩).height = (PyRange.mk 5 6).length * 1 ∧
     (merge_tiles 1 ([((5, 7), Img.mk 1 1 fun _ => 3)] : List ((ℤ × ℤ) × Img))
        ⟨5, 6⟩ ⟨7, 8⟩).pix (0 * 1 + 0, 0 * 1 + 0)
        = (match lookupTile ([((5, 7), Img.mk 1 1 fun _ => 3)] : List ((ℤ × ℤ) × Img))
             ((PyRange.mk 5 6).start + ((0 : ℕ) : ℤ), (PyRange.mk 7 8).start + ((0 : ℕ) : ℤ)) with
           | some tile => tile.pix (0, 0)
           | none => 0) ∧
     merge_tiles 1 ([((5, 7), Img.mk 1 1 fun _ => 3)] : List ((ℤ × ℤ) × Img)) ⟨5, 6⟩ ⟨7, 8⟩
        = merge_tiles 1 ([((5, 7), Img.mk 1 1 fun _ => 3)] : List ((ℤ × ℤ) × Img)) ⟨5, 6⟩ ⟨7, 8⟩) := by
  have hsz : ∀ kv ∈ ([((5, 7), Img.mk 1 1 fun _ => 3)] : List ((ℤ × ℤ) × Img)),
      kv.2.width = 1 ∧ kv.2.height = 1 := by
    intro kv hkv
    rw [List.mem_singleton] at hkv
    rw [hkv]
    exact ⟨rfl, rfl⟩
  have hlen1 : 0 < (PyRange.mk 5 6).length := by decide
  have hlen2 : 0 < (PyRange.mk 7 8).length := by decide
  refine ⟨⟨Nat.one_pos, hsz, by simp, List.Perm.refl _, hlen1, hlen2⟩, ?_⟩
  exact claim_C8 1 Nat.one_pos ([((5, 7), Img.mk 1 1 fun _ => 3)] : List ((ℤ × ℤ) × Img))
    ([((5, 7), Img.mk 1 1 fun _ => 3)] : List ((ℤ × ℤ) × Img)) hsz (by simp)
    (List.Perm.refl _) ⟨5, 6⟩ ⟨7, 8⟩ hlen1 hlen2 0 0 0 0 hlen1 hlen2
    Nat.one_pos Nat.one_pos

/-- The configuration consumed by the fetcher (`config.py` `Settings` plus
the `WMTSConfig` fields used by `fetch_tiles.py`).  `zoom = none` models
`ZOOM` unset or `0` (falsy), in which case `select_zoom_level` is used. -/
structure Settings where
  parking_name : String
  bbox : BBox
  zoom : Option ℕ
  min_pixels : ℤ
  tile_size : ℕ
  base_url : String
  layer : String
  style : String
  format : String
  tile_matrix_set : String

/-- The WMTS `GetTile` query parameters built by `fetch_tile`; this is the
only place the configured tile matrix set is used.  The network interaction
itself is abstracted in `fetch_orthophoto` by an oracle mapping
`(row, col, zoom)` to the decoded tile image (`some`) or a fetch failure
(`none`). -/
def fetch_tile_params (s : Settings) (row col : ℤ) (zoom : ℕ) : List (String × String) :=
  [("SERVICE", "WMTS"), ("REQUEST", "GetTile"), ("VERSION", "1.0.0"),
   ("LAYER", s.layer), ("STYLE", s.style), ("FORMAT", s.format),
   ("TILEMATRIXSET", s.tile_matrix_set),
   ("TILEMATRIX", s.tile_matrix_set ++ ":" ++ toString zoom),
   ("TILEROW", toString row), ("TILECOL", toString col)]

/-- `zoom = settings.zoom if settings.zoom else select_zoom_level(settings.bbox)`
(`None` and `0` are falsy in Python). -/
def chosenZoom (s : Settings) : ℕ :=
  match s.zoom with
  | some z =>
    if z = 0 then select_zoom_level s.bbox (s.tile_size : ℤ) s.min_pixels else z
  | none => select_zoom_level s.bbox (s.tile_size : ℤ) s.min_pixels

/-- `row_range, col_range = bbox_to_tiles(settings.bbox, zoom)`. -/
def tileRanges (s : Settings) : PyRange × PyRange :=
  bbox_to_tiles s.bbox (chosenZoom s)

/-- The rows iterated by the fetch loop. -/
def tileRows (s : Settings) : List ℤ := (tileRanges s).1.toList

/-- The columns iterated by the fetch loop. -/
def tileCols (s : Settings) : List ℤ := (tileRanges s).2.toList

/-- The tile dict built by the fetch loop of `fetch_orthophoto`: for each
`(row, col)` of the rectangle in row-major order, a successful fetch inserts
the decoded image under key `(row, col)`; failures are skipped. -/
def fetchedTiles (s : Settings) (f : ℤ → ℤ → ℕ → Option Img) :
    List ((ℤ × ℤ) × Img) :=
  (tileRows s).flatMap fun row =>
    (tileCols s).filterMap fun col =>
      (f row col (chosenZoom s)).map fun tile => ((row, col), tile)

/-- The mosaic metadata dict written by `fetch_orthophoto`. -/
structure Metadata where
  name : String
  bbox : BBox
  image_size : ℕ × ℕ
  crs : String
  zoom_level : ℕ
deriving DecidableEq, Repr

/-- `fetch_orthophoto` from `fetch_tiles.py` (pure core): choose the zoom,
enumerate the tile rectangle, fetch each tile through the oracle `f`, raise
(`Except.error`) when no tile was fetched successfully, otherwise merge the
tiles, build the merged bbox from the first and last tile bboxes, crop to
the target bbox, and return the metadata (with `crs` always "EPSG:3857"). -/
def fetch_orthophoto (s : Settings) (f : ℤ → ℤ → ℕ → Option Img) :
    Except String Metadata :=
  let zoom := chosenZoom s
  let row_range := (tileRanges s).1
  let col_range := (tileRanges s).2
  let tiles := fetchedTiles s f
  if tiles.isEmpty then Except.error "No tiles were fetched successfully"
  else
    let merged := merge_tiles s.tile_size tiles row_range col_range
    let first_tile_bbox := get_tile_bbox row_range.start col_range.start zoom
    let last_tile_bbox := get_tile_bbox (row_range.stop - 1) (col_range.stop - 1) zoom
    let merged_bbox : BBox := ⟨first_tile_bbox.min_x, last_tile_bbox.min_y,
                               last_tile_bbox.max_x, first_tile_bbox.max_y⟩
    let c := crop_to_bbox merged merged_bbox s.bbox
    Except.ok { name := s.parking_name, bbox := c.2,
                image_size := (c.1.width, c.1.height),
                crs := "EPSG:3857", zoom_level := zoom }

lemma fetchedTiles_eq_nil (s : Settings) (f : ℤ → ℤ → ℕ → Option Img) :
    fetchedTiles s f = [] ↔
      ∀ r ∈ tileRows s, ∀ c ∈ tileCols s, f r c (chosenZoom s) = none := by
  unfold fetchedTiles
  rw [List.flatMap_eq_nil_iff]
  constructor
  · intro h r hr c hc
    have h2 := (List.filterMap_eq_nil_iff.mp (h r hr)) c hc
    exact Option.map_eq_none'.mp h2
  · intro h r hr
    rw [List.filterMap_eq_nil_iff]
    intro c hc
    rw [h r hr c hc]
    rfl

/-- Claim C2: the result of `fetch_orthophoto` does not depend on the
configured tile matrix set (whose default is "EPSG:4326" and which is only
forwarded to the WMTS request parameters), and whenever it succeeds the
metadata records `crs = "EPSG:3857"` — all tile indices and tile bounding
boxes come from the Web-Mercator-meters formulas of `meters_to_tile` /
`tile_to_meters`, for any configured bounding box. -/
theorem claim_C2 (s : Settings) (f : ℤ → ℤ → ℕ → Option Img) (tms : String) :
    fetch_orthophoto { s with tile_matrix_set := tms } f = fetch_orthophoto s f ∧
    (fetch_orthophoto s f).map Metadata.crs
      = (fetch_orthophoto s f).map fun _ => "EPSG:3857" := by
  constructor
  · cases s
    rfl
  · simp only [fetch_orthophoto]
    by_cases hb : (fetchedTiles s f).isEmpty = true
    · rw [if_pos hb]
      rfl
    · rw [if_neg hb]
      rfl

/-- Claim C10: `fetch_orthophoto` raises its no-tiles-fetched failure if and
only if every tile fetch in the computed rectangle failed; it returns a
success (proceeding to assemble the mosaic) exactly when at least one tile
fetch succeeded. -/
theorem claim_C10 (s : Settings) (f : ℤ → ℤ → ℕ → Option Img) :
    (fetch_orthophoto s f = Except.error "No tiles were fetched successfully"
      ↔ ∀ r ∈ tileRows s, ∀ c ∈ tileCols s, f r c (chosenZoom s) = none) ∧
    ((∃ m, fetch_orthophoto s f = Except.ok m)
      ↔ ¬ ∀ r ∈ tileRows s, ∀ c ∈ tileCols s, f r c (chosenZoom s) = none) := by
  simp only [fetch_orthophoto]
  by_cases hemp : fetchedTiles s f = []
  · have hb : (fetchedTiles s f).isEmpty = true := by
      rw [hemp]
      rfl
    rw [if_pos hb]
    constructor
    · exact iff_of_true rfl ((fetchedTiles_eq_nil s f).mp hemp)
    · apply iff_of_false
      · rintro ⟨m, hm⟩
        cases hm
      · intro hn
        exact hn ((fetchedTiles_eq_nil s f).mp hemp)
  · have hb : ¬ (fetchedTiles s f).isEmpty = true :=
      fun h => hemp (List.isEmpty_iff.mp h)
    rw [if_neg hb]
    constructor
    · apply iff_of_false
      · intro h
        cases h
      · intro hall
        exact hemp ((fetchedTiles_eq_nil s f).mpr hall)
    · apply iff_of_true
      · exact ⟨_, rfl⟩
      · intro hall
        exact hemp ((fetchedTiles_eq_nil s f).mpr hall)

/-- A bounding box over `ℝ` for the geo-converter (`convert.py` reads the
mosaic/tile bbox from JSON metadata). -/
structure BBoxR where
  min_x : ℝ
  min_y : ℝ
  max_x : ℝ
  max_y : ℝ

/-- `epsg3857_to_epsg4326` from `convert.py`:
`lon = x * 180 / ORIGIN`, `lat = atan(exp(y * pi / ORIGIN)) * 360 / pi - 90`.
`convert.py` defines the same constant `ORIGIN = 20037508.342787`. -/
noncomputable def epsg3857_to_epsg4326 (x y : ℝ) : ℝ × ℝ :=
  (x * 180 / (ORIGIN : ℝ),
   Real.arctan (Real.exp (y * Real.pi / (ORIGIN : ℝ))) * 360 / Real.pi - 90)

/-- Python's `round(v, n)` (model: round half toward the larger value;
Python rounds exact ties to even, which differs only on exact ties). -/
noncomputable def pyRound (v : ℝ) (ndigits : ℕ) : ℝ :=
  (round (v * 10 ^ ndigits) : ℤ) / 10 ^ ndigits

/-- The per-vertex conversion performed inside the loop of
`pixel_polygon_to_lonlat_polygon`: pixel → EPSG:3857 by the inverted linear
scaling, then EPSG:3857 → EPSG:4326, each output rounded to 7 decimals. -/
noncomputable def lonlatOfPixel (width height : ℕ) (bbox : BBoxR) (q : ℝ × ℝ) : ℝ × ℝ :=
  (pyRound (epsg3857_to_epsg4326
      (bbox.min_x + q.1 * ((bbox.max_x - bbox.min_x) / (width : ℝ)))
      (bbox.max_y - q.2 * ((bbox.max_y - bbox.min_y) / (height : ℝ)))).1 7,
   pyRound (epsg3857_to_epsg4326
      (bbox.min_x + q.1 * ((bbox.max_x - bbox.min_x) / (width : ℝ)))
      (bbox.max_y - q.2 * ((bbox.max_y - bbox.min_y) / (height : ℝ)))).2 7)

/-- `pixel_polygon_to_lonlat_polygon` from `convert.py`: map every pixel
vertex through `lonlatOfPixel`, then close the ring by appending the first
converted vertex (`coords.append(coords[0])`); the result is wrapped in a
singleton list (one GeoJSON Polygon ring).  On an empty input polygon the
Python code raises `IndexError` at `coords[0]`; the empty case below is
unreachable for the non-empty inputs the claims quantify over. -/
noncomputable def pixel_polygon_to_lonlat_polygon (polygon_pixel : List (ℝ × ℝ))
    (width height : ℕ) (bbox_3857 : BBoxR) : List (List (ℝ × ℝ)) :=
  let coords := polygon_pixel.map (lonlatOfPixel width height bbox_3857)
  match coords with
  | [] => []
  | c :: cs => [(c :: cs) ++ [c]]

/-- Claim C9: for every non-empty pixel polygon of `n` points, positive image
size and EPSG:3857 bbox, `pixel_polygon_to_lonlat_polygon` returns a single
ring containing, in order, the per-vertex conversions (inverted linear pixel
scaling, then `lon = x*180/ORIGIN`, `lat = atan(exp(y*pi/ORIGIN))*360/pi -
90`, rounded to 7 decimals) followed by a repeat of the first converted
vertex; the ring has exactly `n + 1` pairs and its last pair equals its
first. -/
theorem claim_C9 (poly : List (ℝ × ℝ)) (w h : ℕ) (bbox : BBoxR)
    (hne : poly ≠ []) (hw : 0 < w) (hh : 0 < h) :
    pixel_polygon_to_lonlat_polygon poly w h bbox
      = [poly.map (lonlatOfPixel w h bbox) ++ [lonlatOfPixel w h bbox (poly.head hne)]] ∧
    (poly.map (lonlatOfPixel w h bbox)
        ++ [lonlatOfPixel w h bbox (poly.head hne)]).length = poly.length + 1 ∧
    (poly.map (lonlatOfPixel w h bbox)
        ++ [lonlatOfPixel w h bbox (poly.head hne)]).getLast?
      = (poly.map (lonlatOfPixel w h bbox)
        ++ [lonlatOfPixel w h bbox (poly.head hne)]).head? := by
  match poly, hne with
  | p :: ps, _ =>
    refine ⟨rfl, by simp, ?_⟩
    rw [List.head_cons]
    rw [show ((p :: ps).map (lonlatOfPixel w h bbox) ++ [lonlatOfPixel w h bbox p])
          = (lonlatOfPixel w h bbox p :: ps.map (lonlatOfPixel w h bbox))
            ++ [lonlatOfPixel w h bbox p] from by simp]
    rw [List.getLast?_concat]
    rfl

/-- Witness for claim C9 at the one-point polygon `[(0, 0)]` on a 1×1 image
with bbox `[0, 0, 1, 1]`. -/
theorem claim_C9_witness :
    (([((0 : ℝ), (0 : ℝ))] : List (ℝ × ℝ)) ≠ [] ∧ 0 < 1 ∧ 0 < 1) ∧
    (pixel_polygon_to_lonlat_polygon [((0 : ℝ), (0 : ℝ))] 1 1 ⟨0, 0, 1, 1⟩
      = [([((0 : ℝ), (0 : ℝ))] : List (ℝ × ℝ)).map (lonlatOfPixel 1 1 ⟨0, 0, 1, 1⟩)
          ++ [lonlatOfPixel 1 1 ⟨0, 0, 1, 1⟩
                (([((0 : ℝ), (0 : ℝ))] : List (ℝ × ℝ)).head (by simp))]] ∧
     (([((0 : ℝ), (0 : ℝ))] : List (ℝ × ℝ)).map (lonlatOfPixel 1 1 ⟨0, 0, 1, 1⟩)
        ++ [lonlatOfPixel 1 1 ⟨0, 0, 1, 1⟩
              (([((0 : ℝ), (0 : ℝ))] : List (ℝ × ℝ)).head (by simp))]).length
        = ([((0 : ℝ), (0 : ℝ))] : List (ℝ × ℝ)).length + 1 ∧
     (([((0 : ℝ), (0 : ℝ))] : List (ℝ × ℝ)).map (lonlatOfPixel 1 1 ⟨0, 0, 1, 1⟩)
        ++ [lonlatOfPixel 1 1 ⟨0, 0, 1, 1⟩
              (([((0 : ℝ), (0 : ℝ))] : List (ℝ × ℝ)).head (by simp))]).getLast?
        = (([((0 : ℝ), (0 : ℝ))] : List (ℝ × ℝ)).map (lonlatOfPixel 1 1 ⟨0, 0, 1, 1⟩)
            ++ [lonlatOfPixel 1 1 ⟨0, 0, 1, 1⟩
                  (([((0 : ℝ), (0 : ℝ))] : List (ℝ × ℝ)).head (by simp))]).head?) :=
  ⟨⟨by simp, Nat.one_pos, Nat.one_pos⟩,
   claim_C9 [((0 : ℝ), (0 : ℝ))] 1 1 ⟨0, 0, 1, 1⟩ (by simp) Nat.one_pos Nat.one_pos⟩
